import Mathlib

/-!
Verification of the `xdf-iteach-ppt-download` backend
(`websrc/backend/app`): a shallow embedding in Lean 4 of the
PDF-generation pipeline (`services/pdf_service.py`), the validators
(`utils/validators.py`), the route handlers (`routes/api.py`) and the
configuration (`config.py`), together with theorems settling the frozen
specification claims C1-C10.

Modelling conventions:
  * image byte-buffers are `List Nat`;
  * the network is a deterministic function `net : String → HttpResult`
    giving the outcome of an HTTP GET per URL (the shared `httpx`
    client and the concurrency semaphore affect only scheduling, never
    which response a URL yields);
  * `asyncio.gather` returns per-task results in task order regardless
    of completion order, so the result list is a `map` over the tasks;
  * exceptions become `Except` values; `HTTPException` payloads become
    the constructors of `PdfError`.
-/

/-- One entry of the JSON document's `pages` array, as consumed by
`build_pdf_from_json`: the optional `_idx` field (read with
`page.get("_idx", 0)`) and the `coverImg` field (read with
`page.get("coverImg", "")`, so a missing cover is the empty string). -/
structure Page where
  idx : Option Int
  coverImg : String
deriving DecidableEq, Repr

/-- `page.get("_idx", 0)`: the declared index, defaulting to 0. -/
def pageIdx (p : Page) : Int := p.idx.getD 0

/-- Image byte-buffers. -/
abbrev Bytes := List Nat

/-- Outcome of one HTTP GET: either a response with a status code and a
body, or a raised transport error (connection failure, timeout, ...). -/
inductive HttpResult where
  | response (status : Nat) (content : Bytes)
  | netError
deriving DecidableEq, Repr

/-- The errors raised as `HTTPException` along the pipeline, one
constructor per `raise` site of `pdf_service.py` / `validators.py`. -/
inductive PdfError where
  | tooManyPages (n : Nat)
  | noCoverImages
  | tooManyImages (n : Nat)
  | forbiddenHost (h : Option String)
  | allDownloadsFailed
  | malformedReference
deriving DecidableEq, Repr

deriving instance DecidableEq for Except

/-- The fields of `config.Settings` the claims depend on.  `max_pages`
and `max_images` are not overridable from the environment
(`Settings.from_env` only touches task/concurrency/timeout knobs), so
their values are always the dataclass defaults. -/
structure Settings where
  max_pages : Nat
  max_images : Nat
  total_timeout : Nat
  allowed_hosts : List String
  allowed_image_hosts : List String

/-- The global `settings` instance with the dataclass defaults
(`total_timeout` is the default 180.0 seconds, an integer). -/
def settings : Settings :=
  { max_pages := 2000
    max_images := 2000
    total_timeout := 180
    allowed_hosts := ["iteach-cloudedit.xdf.cn", "iteachcdn.xdf.cn"]
    allowed_image_hosts := ["iteachcdn.xdf.cn"] }

/-- `download_image(client, semaphore, idx, url)`: awaits
`client.get(url)` then `raise_for_status()` and returns
`(idx, response.content)`; the blanket `except Exception` turns any
transport error or non-2xx status (`httpx` raises for every non-success
status) into `(idx, None)`.  The semaphore and client only schedule the
request; the outcome per URL is `net url`. -/
def download_image (net : String → HttpResult) (idx : Int) (url : String) :
    Int × Option Bytes :=
  match net url with
  | .netError => (idx, none)
  | .response status content =>
      if 200 ≤ status ∧ status < 300 then (idx, some content) else (idx, none)

/-- The `asyncio.gather(*tasks)` result list: one `(idx, data?)` tuple
per launched task, in task order (gather preserves task order no matter
in which order the downloads complete).  `return_exceptions=True` never
matters because `download_image` never raises. -/
def gatherResults (net : String → HttpResult) (image_urls : List (Int × String)) :
    List (Int × Option Bytes) :=
  image_urls.map (fun pr => download_image net pr.1 pr.2)

/-- The `valid_results` accumulation loop of `download_images_parallel`:
keep exactly the settled tuples whose data is not `None`. -/
def validResults (net : String → HttpResult) (image_urls : List (Int × String)) :
    List (Int × Bytes) :=
  (gatherResults net image_urls).filterMap (fun pr => pr.2.map (fun d => (pr.1, d)))

/-- Stable insertion step for an ascending sort on an integer key:
`x` goes in front of the first element whose key is `≥ f x`. -/
def insertK (f : α → Int) (x : α) : List α → List α
  | [] => [x]
  | y :: ys => if f x ≤ f y then x :: y :: ys else y :: insertK f x ys

/-- Stable ascending sort by an integer key; models Python's stable
`sorted(..., key=...)` / `list.sort(key=...)` (Timsort is stable, and
any two stable ascending sorts agree). -/
def sortK (f : α → Int) : List α → List α
  | [] => []
  | x :: xs => insertK f x (sortK f xs)

/-- `download_images_parallel(image_urls)`: gather all downloads, keep
the successful tuples, raise `HTTPException(400, "图片全部下载失败")` when
none succeeded, otherwise sort ascending by index
(`valid_results.sort(key=lambda x: x[0])`, stable) and return the bare
byte-buffers. -/
def download_images_parallel (net : String → HttpResult)
    (image_urls : List (Int × String)) : Except PdfError (List Bytes) :=
  let valid := validResults net image_urls
  if valid = [] then .error .allDownloadsFailed
  else .ok ((sortK Prod.fst valid).map Prod.snd)

/-- The serialized progress events issued while `remaining` downloads
are still to settle: each settlement (success or failure alike) holds
the `asyncio.Lock`, increments `completed` and invokes the callback
with `("downloading", completed, total)`.  `download_with_progress`
runs this once per task and `asyncio.gather` awaits all of them, so a
run with `n` launched downloads produces `downloadTrace 0 n n`. -/
def downloadTrace (completed total : Nat) : Nat → List (String × Nat × Nat)
  | 0 => []
  | remaining + 1 =>
      ("downloading", completed + 1, total) :: downloadTrace (completed + 1) total remaining

/-- The whole progress-callback trace of one
`download_images_parallel` run with `total` launched downloads. -/
def runTrace (total : Nat) : List (String × Nat × Nat) :=
  downloadTrace 0 total total

/-- Step 3 + 4 of `build_pdf_from_json` applied to an already-ordered
page list: keep pages whose `coverImg` is truthy (non-empty) and pair
the declared index with the cover URL. -/
def extractUrls (pages : List Page) : List (Int × String) :=
  pages.filterMap (fun p =>
    if p.coverImg = "" then none else some (pageIdx p, p.coverImg))

/-- The `image_urls` list of `build_pdf_from_json`: pages stable-sorted
by `_idx` (default 0), then covers extracted in that order. -/
def imageUrls (pages : List Page) : List (Int × String) :=
  extractUrls (sortK pageIdx pages)

/-!  URL machinery, modelling the parts of `urllib.parse` the
validators use (`urlparse(...).hostname`, `urlparse(...).query`,
`parse_qs`, `unquote`).  Strings are handled through their character
lists.  `unquote` is modelled byte-per-escape (each `%XX` becomes the
character with that code; Python additionally reassembles multi-byte
UTF-8 sequences, which none of the claims exercise). -/

/-- Split a character list at the first occurrence of `sep`, if any. -/
def splitFirst (sep : Char) : List Char → Option (List Char × List Char)
  | [] => none
  | c :: rest =>
      if c = sep then some ([], rest)
      else (splitFirst sep rest).map (fun pr => (c :: pr.1, pr.2))

/-- Split a character list on every occurrence of `sep`
(Python `str.split(sep)`: the empty string yields `[""]`). -/
def splitSep (sep : Char) : List Char → List (List Char)
  | [] => [[]]
  | c :: rest =>
      if c = sep then [] :: splitSep sep rest
      else
        match splitSep sep rest with
        | [] => [[c]]
        | g :: gs => (c :: g) :: gs

/-- `pat` occurs at the head of `l`. -/
def startsWithL : List Char → List Char → Bool
  | _, [] => true
  | [], _ :: _ => false
  | c :: cs, p :: ps => c = p && startsWithL cs ps

/-- Python's `pat in s` substring test. -/
def containsSubL (l pat : List Char) : Bool :=
  match l with
  | [] => pat.isEmpty
  | _ :: rest => startsWithL l pat || containsSubL rest pat

/-- `l` ends with `suf`. -/
def endsWithL (l suf : List Char) : Bool :=
  startsWithL l.reverse suf.reverse

/-- ASCII lower-casing of one character (`str.lower()` on the
characters the claims exercise). -/
def asciiLower (c : Char) : Char :=
  if 'A' ≤ c ∧ c ≤ 'Z' then Char.ofNat (c.toNat + 32) else c

/-- Value of a hexadecimal digit, `none` for anything else. -/
def hexVal (c : Char) : Option Nat :=
  if '0' ≤ c ∧ c ≤ '9' then some (c.toNat - 48)
  else if 'A' ≤ c ∧ c ≤ 'F' then some (c.toNat - 55)
  else if 'a' ≤ c ∧ c ≤ 'f' then some (c.toNat - 87)
  else none

/-- One piece of an `unquote` split: when the piece starts with two hex
digits they encode one character, otherwise the cut `%` was a literal. -/
def decodePiece (piece : List Char) : List Char :=
  match piece with
  | a :: b :: rest =>
      match hexVal a, hexVal b with
      | some x, some y => Char.ofNat (16 * x + y) :: rest
      | _, _ => '%' :: piece
  | _ => '%' :: piece

/-- `urllib.parse.unquote`, structured the way CPython implements it:
split on `%`, keep the first piece verbatim and decode the head of
every later piece; a `%` not followed by two hex digits stays literal. -/
def percentDecodeL (l : List Char) : List Char :=
  match splitSep '%' l with
  | [] => []
  | first :: pieces => first ++ (pieces.map decodePiece).flatten

/-- `urllib.parse.unquote_plus`, used by `parse_qs` on every name and
value: `+` becomes a space, then percent-escapes are decoded. -/
def unquotePlus (l : List Char) : List Char :=
  percentDecodeL (l.map (fun c => if c = '+' then ' ' else c))

/-- A character allowed in a URL scheme (`urllib.parse.scheme_chars`). -/
def isSchemeChar (c : Char) : Bool :=
  c.isAlphanum || c = '+' || c = '-' || c = '.'

/-- `urlsplit` step 1: strip a leading `scheme:` when everything before
the first colon is made of scheme characters. -/
def removeScheme (l : List Char) : List Char :=
  match splitFirst ':' l with
  | some (pre, rest) => if pre ≠ [] ∧ pre.all isSchemeChar then rest else l
  | none => l

/-- `urlsplit` step 2: when the remainder starts with `//`, the netloc
runs up to the first `/`, `?` or `#`; returns `(netloc, rest)`. -/
def netlocSplit (l : List Char) : List Char × List Char :=
  match l with
  | '/' :: '/' :: rest =>
      (rest.takeWhile (fun c => c ≠ '/' ∧ c ≠ '?' ∧ c ≠ '#'),
       rest.dropWhile (fun c => c ≠ '/' ∧ c ≠ '?' ∧ c ≠ '#'))
  | _ => ([], l)

/-- `urlparse(url).hostname`: the netloc with any `user:pass@` part
dropped (everything up to the last `@`), truncated at the port colon,
lower-cased; `none` when empty.  (IPv6 bracket syntax is not modelled;
no claim exercises it.) -/
def hostnameOf (url : String) : Option String :=
  let netloc := (netlocSplit (removeScheme url.data)).1
  let afterAt := ((splitSep '@' netloc).getLast? ).getD netloc
  let host := afterAt.takeWhile (fun c => c ≠ ':')
  if host = [] then none else some (String.mk (host.map asciiLower))

/-- `urlparse(url).query`: after scheme and netloc are removed, the
fragment (everything from the first `#`) is cut off, and the query is
what follows the first `?` of what remains. -/
def queryOf (url : String) : List Char :=
  let rest := (netlocSplit (removeScheme url.data)).2
  let beforeFrag := ((splitFirst '#' rest).map Prod.fst).getD rest
  match splitFirst '?' beforeFrag with
  | some (_, q) => q
  | none => []

/-- `urllib.parse.parse_qsl` with the default
`keep_blank_values=False`: split the query on `&`, drop fields without
`=` and fields with an empty value, and `unquote_plus` both name and
value. -/
def parseQsl (query : List Char) : List (List Char × List Char) :=
  (splitSep '&' query).filterMap (fun field =>
    match splitFirst '=' field with
    | none => none
    | some (n, v) => if v = [] then none else some (unquotePlus n, unquotePlus v))

/-- `parse_qs(query)[name]`: the list of decoded values bound to
`name`, in query order (empty list when the key would be absent). -/
def qsGet (query : List Char) (name : List Char) : List (List Char) :=
  (parseQsl query).filterMap (fun pr => if pr.1 = name then some pr.2 else none)

/-- `validate_host(url, allowed_hosts)`: raises
`HTTPException(400, f"不允许访问的域名：{hostname}")` when the hostname is
missing or not allow-listed; the error names the offending hostname. -/
def validate_host (url : String) (allowed : List String) : Except PdfError Unit :=
  match hostnameOf url with
  | none => .error (.forbiddenHost none)
  | some h => if h ∈ allowed then .ok () else .error (.forbiddenHost (some h))

/-- The image-host validation loop of `build_pdf_from_json` step 4:
`for _, url in image_urls: validate_host(url, settings.allowed_image_hosts)`
— the first raised exception aborts the whole loop. -/
def validateHosts : List (Int × String) → Except PdfError Unit
  | [] => .ok ()
  | pr :: rest =>
      match validate_host pr.2 settings.allowed_image_hosts with
      | .error e => .error e
      | .ok _ => validateHosts rest

/-- `build_pdf_from_json(json_obj)`, through step 5: reject too many
pages, sort by `_idx` and extract `(idx, coverImg)` pairs, reject an
empty or oversized batch, validate every image host, then download.
The returned buffer list is exactly what step 6 hands to
`img2pdf.convert`; the encoder itself is an external library and is
not modelled.  (The `pages`-is-a-list schema check is discharged by
the input type.) -/
def build_pdf_from_json (net : String → HttpResult) (pages : List Page) :
    Except PdfError (List Bytes) :=
  if settings.max_pages < pages.length then .error (.tooManyPages pages.length)
  else
    let urls := imageUrls pages
    if urls = [] then .error .noCoverImages
    else if settings.max_images < urls.length then .error (.tooManyImages urls.length)
    else
      match validateHosts urls with
      | .error e => .error e
      | .ok _ => download_images_parallel net urls

/-- `extract_json_url(maybe_display_url)`: return the reference
unchanged when the substring `"jsonUrl="` does not occur in it and it
lower-case-ends in `".json"`; otherwise parse the query string, raise
`HTTPException(400, "链接中未找到 jsonUrl 参数...")` when `jsonUrl` is
absent (or all its values were empty, which `parse_qs` drops), and
otherwise return `unquote(qs["jsonUrl"][0])` — note the value was
already percent-decoded once by `parse_qs`, so it is decoded twice. -/
def extract_json_url (ref : String) : Except PdfError String :=
  if ¬ containsSubL ref.data "jsonUrl=".data
      ∧ endsWithL (ref.data.map asciiLower) ".json".data then .ok ref
  else
    match qsGet (queryOf ref) "jsonUrl".data with
    | [] => .error .malformedReference
    | v :: _ => .ok (String.mk (percentDecodeL v))

/-!  `safe_filename` (`utils/validators.py`). -/

/-- A character kept by the sanitizing regex
`[^\w\-.() 一-鿿]+`: word characters, hyphen, dot,
parentheses, space, and the CJK block U+4E00-U+9FFF.  (`\w` is
modelled as ASCII alphanumerics plus underscore; Python's Unicode `\w`
admits further letters, which only enlarges the kept set — every
character this predicate accepts is accepted by the regex.) -/
def allowedChar (c : Char) : Bool :=
  c.isAlphanum || c = '_' || c = '-' || c = '.' || c = '(' || c = ')' || c = ' '
    || (0x4e00 ≤ c.toNat && c.toNat ≤ 0x9fff)

/-- Python `str.strip()` whitespace. -/
def isStripChar (c : Char) : Bool :=
  c = ' ' || c = '\t' || c = '\n' || c = '\r' || c.toNat = 11 || c.toNat = 12

/-- `str.strip()`: drop whitespace from both ends. -/
def stripL (l : List Char) : List Char :=
  ((l.dropWhile isStripChar).reverse.dropWhile isStripChar).reverse

/-- `re.sub(r"[^\w\-.() 一-鿿]+", "_", name)`: every maximal
run of disallowed characters becomes a single `_`.  The `prevBad` flag
records whether the previous character was part of such a run. -/
def subRun (prevBad : Bool) : List Char → List Char
  | [] => []
  | c :: rest =>
      if allowedChar c then c :: subRun false rest
      else if prevBad then subRun true rest
      else '_' :: subRun true rest

/-- `name.lower().endswith(".pdf")`. -/
def lowerEndsWithPdf (l : List Char) : Bool :=
  endsWithL (l.map asciiLower) ".pdf".data

/-- Lines 1-2 of `safe_filename`: `name.strip()` then the regex
substitution. -/
def sanitized (name : String) : List Char :=
  subRun false (stripL name.data)

/-- Line 3 of `safe_filename`:
`if not name.lower().endswith(".pdf"): name += ".pdf"`. -/
def withPdfExt (l : List Char) : List Char :=
  if lowerEndsWithPdf l then l else l ++ ".pdf".data

/-- Line 4 of `safe_filename`: `if len(name) > 120: name = name[:120]`. -/
def truncated (l : List Char) : List Char :=
  if 120 < l.length then l.take 120 else l

/-- `safe_filename(name)`: strip, sanitize, append `.pdf` unless the
lower-cased name already ends in it, truncate to 120 characters, and
`return name or "output.pdf"`. -/
def safe_filename (name : String) : String :=
  let n := truncated (withPdfExt (sanitized name))
  String.mk (if n = [] then "output.pdf".data else n)

/-!  Route handlers (`routes/api.py`).  The overall-deadline behaviour
is modelled by giving each conversion run an abstract wall-clock
`duration` (in seconds): `asyncio.wait_for(work, timeout)` delivers the
work's value when `duration ≤ timeout` and raises
`asyncio.TimeoutError` otherwise. -/

/-- One conversion run as seen by a route handler: how long the awaited
`_work()` coroutine (`fetch_json` + `build_pdf_from_json`) would take,
the network function, and the fetched document (`.error` when
`fetch_json`/validation already failed, `.ok pages` otherwise). -/
structure JobRun where
  duration : Nat
  net : String → HttpResult
  doc : Except PdfError (List Page)

/-- The value `_work()` resolves to: propagate a fetch failure,
otherwise build the PDF input from the fetched document. -/
def runJob (j : JobRun) : Except PdfError (List Bytes) :=
  match j.doc with
  | .error e => .error e
  | .ok pages => build_pdf_from_json j.net pages

/-- Outcome of the synchronous `POST /generate` handler: the streamed
file, a 504 from the `asyncio.TimeoutError` branch, or the re-raised
`HTTPException` of the pipeline. -/
inductive ApiResult where
  | ok (images : List Bytes)
  | timeout504
  | failed (e : PdfError)
deriving DecidableEq, Repr

/-- `generate_pdf(req)` after admission: the whole `_work()` coroutine
runs under `asyncio.wait_for(..., timeout=settings.total_timeout)`;
`asyncio.TimeoutError` becomes `HTTPException(504, ...)`, a pipeline
`HTTPException` is re-raised, success streams the file. -/
def generate_pdf (j : JobRun) : ApiResult :=
  if settings.total_timeout < j.duration then .timeout504
  else
    match runJob j with
    | .error e => .failed e
    | .ok imgs => .ok imgs

/-- Terminal event of the `POST /generate-with-progress` SSE stream:
either the `complete` event carrying the cached result's `task_id`, or
an `error` event. -/
inductive SSEFinal where
  | complete (images : List Bytes)
  | errorEvent (e : PdfError)
deriving DecidableEq, Repr

/-- `generate_pdf_with_progress(req)`, terminal event: the
`build_pdf_from_json` task is created and awaited with **no**
`asyncio.wait_for` around it (the only `wait_for` in the handler is the
0.5 s heartbeat poll on the progress queue), so the outcome depends
only on the work's value, never on its duration. -/
def generate_pdf_with_progress (j : JobRun) : SSEFinal :=
  match runJob j with
  | .error e => .errorEvent e
  | .ok imgs => .complete imgs

/-!  The `_pdf_cache` artifact store (`routes/api.py`). -/

/-- The `_pdf_cache: Dict[str, bytes]`, as an association list whose
keys are unique-by-construction under `cacheInsert`/`cachePop`. -/
abbrev Cache := List (String × Bytes)

/-- `_pdf_cache.get(task_id)`. -/
def cacheGet (c : Cache) (k : String) : Option Bytes :=
  (c.find? (fun pr => pr.1 == k)).map Prod.snd

/-- `_pdf_cache.pop(task_id, None)`: remove the binding if present;
a no-op otherwise. -/
def cachePop (c : Cache) (k : String) : Cache :=
  c.filter (fun pr => pr.1 != k)

/-- `_pdf_cache[task_id] = pdf_bytes`. -/
def cacheInsert (c : Cache) (k : String) (v : Bytes) : Cache :=
  (k, v) :: cachePop c k

/-- `cleanup_cache(task_id, delay)` after its `asyncio.sleep(delay)`
has elapsed: evict the entry (idempotently — `dict.pop` with a default
is a no-op on an absent key). -/
def cleanup_cache (c : Cache) (k : String) : Cache :=
  cachePop c k

/-- `GET /download/{task_id}`: 404 when the entry is absent or already
evicted, otherwise exactly the stored bytes. -/
def download_pdf (c : Cache) (task_id : String) : Except Nat Bytes :=
  match cacheGet c task_id with
  | none => .error 404
  | some b => .ok b

/-- The cache retention window: `cleanup_cache(task_id, 300)` is
scheduled right after the artifact is stored. -/
def retention : Nat := 300

/-- The cache state `t` seconds after the `complete` event stored
`pdf` under `tid` into state `c0`: the scheduled eviction fires once
the retention window has elapsed (idealized timing: `asyncio.sleep d`
wakes at `d`). -/
def cacheAtTime (c0 : Cache) (tid : String) (pdf : Bytes) (t : Nat) : Cache :=
  if t < retention then cacheInsert c0 tid pdf
  else cleanup_cache (cacheInsert c0 tid pdf) tid

/-- The spec's `LimitExceeded` error class (§4.4 names both the
`maxPages` rejection of step 2 and the `maxImages` rejection of step 6
`LimitExceeded`). -/
def isLimitExceeded : PdfError → Bool
  | .tooManyPages _ => true
  | .tooManyImages _ => true
  | _ => false

/-!  Concrete instances used by the witnesses. -/

/-- A two-page document whose pages are declared out of order. -/
def pagesW : List Page :=
  [⟨some 2, "https://iteachcdn.xdf.cn/b.png"⟩,
   ⟨some 1, "https://iteachcdn.xdf.cn/a.png"⟩]

/-- A network on which both covers of `pagesW` download successfully. -/
def netW : String → HttpResult := fun u =>
  if u = "https://iteachcdn.xdf.cn/a.png" then .response 200 [10]
  else .response 200 [20]

/-- A network on which every request fails with a transport error. -/
def netFail : String → HttpResult := fun _ => .netError

/-- A network on which every request succeeds. -/
def netOk : String → HttpResult := fun _ => .response 200 [7]

/-- A one-page document with an allow-listed cover host. -/
def pagesOk : List Page := [⟨some 1, "https://iteachcdn.xdf.cn/a.png"⟩]

/-- A one-page document whose cover lives on a non-allow-listed host. -/
def pagesBadHost : List Page := [⟨some 1, "https://evil.example/a.png"⟩]

/-- 2001 identical pages, each contributing one cover. -/
def pagesBig : List Page := List.replicate 2001 ⟨none, "x"⟩

/-!  Properties of the stable insertion sort `sortK`. -/

/-- Membership in an insertion step. -/
theorem mem_insertK {α : Type _} (f : α → Int) (x a : α) (l : List α) :
    a ∈ insertK f x l ↔ a = x ∨ a ∈ l := by
  induction l with
  | nil => simp [insertK]
  | cons y ys ih =>
      simp only [insertK]
      split
      · simp [List.mem_cons]
      · simp only [List.mem_cons, ih]
        tauto

/-- Insertion preserves ascending key order. -/
theorem pairwise_insertK (f : α → Int) (x : α) (l : List α)
    (h : l.Pairwise (fun a b => f a ≤ f b)) :
    (insertK f x l).Pairwise (fun a b => f a ≤ f b) := by
  induction l with
  | nil => simp [insertK]
  | cons y ys ih =>
      rw [List.pairwise_cons] at h
      obtain ⟨hy, hys⟩ := h
      by_cases hle : f x ≤ f y
      · simp only [insertK, if_pos hle]
        refine List.Pairwise.cons ?_ (List.Pairwise.cons hy hys)
        intro b hb
        rcases List.mem_cons.mp hb with rfl | hb
        · exact hle
        · exact le_trans hle (hy b hb)
      · simp only [insertK, if_neg hle]
        refine List.Pairwise.cons ?_ (ih hys)
        intro b hb
        rcases (mem_insertK f x b ys).mp hb with rfl | hb
        · exact le_of_not_le hle
        · exact hy b hb

/-- The output of `sortK` is ascending in the key. -/
theorem sortK_pairwise (f : α → Int) (l : List α) :
    (sortK f l).Pairwise (fun a b => f a ≤ f b) := by
  induction l with
  | nil => simp [sortK]
  | cons x xs ih => exact pairwise_insertK f x _ ih

/-- Filtering one key class through an insertion step: the inserted
element lands in front of the class exactly when it belongs to it (it
can never jump over an equal key, because insertion only passes
elements with a strictly smaller key). -/
theorem filter_insertK (f : α → Int) (k : Int) (x : α) (l : List α) :
    (insertK f x l).filter (fun a => f a == k)
      = if f x == k then x :: l.filter (fun a => f a == k)
        else l.filter (fun a => f a == k) := by
  induction l with
  | nil => cases hx : (f x == k) <;> simp [insertK, List.filter, hx]
  | cons y ys ih =>
      by_cases hle : f x ≤ f y
      · cases hx : (f x == k) <;>
          simp [insertK, if_pos hle, List.filter_cons, hx]
      · simp only [insertK, if_neg hle, List.filter_cons, ih]
        cases hx : (f x == k) with
        | false => simp
        | true =>
            cases hy : (f y == k) with
            | false => simp
            | true =>
                have hxk : f x = k := by simpa using hx
                have hyk : f y = k := by simpa using hy
                exact absurd (by omega : f x ≤ f y) hle

/-- Stability of `sortK`: each key class of the output is, verbatim
in order, the key class of the input. -/
theorem sortK_filter_key (f : α → Int) (k : Int) (l : List α) :
    (sortK f l).filter (fun a => f a == k) = l.filter (fun a => f a == k) := by
  induction l with
  | nil => rfl
  | cons x xs ih =>
      simp only [sortK]
      rw [filter_insertK, ih, List.filter_cons]

/-- Inserting adds one element. -/
theorem insertK_length (f : α → Int) (x : α) (l : List α) :
    (insertK f x l).length = l.length + 1 := by
  induction l with
  | nil => rfl
  | cons y ys ih =>
      simp only [insertK]
      split <;> simp [ih]

/-- Sorting preserves length. -/
theorem sortK_length (f : α → Int) (l : List α) :
    (sortK f l).length = l.length := by
  induction l with
  | nil => rfl
  | cons x xs ih => simp [sortK, insertK_length, ih]

/-!  Commutation of key-class filtering with extraction and with the
download pipeline (both preserve the index of every element). -/

/-- `download_image` tags its result with the index it was given. -/
theorem download_image_fst (net : String → HttpResult) (idx : Int) (url : String) :
    (download_image net idx url).1 = idx := by
  unfold download_image
  cases net url with
  | netError => rfl
  | response s c => by_cases h : 200 ≤ s ∧ s < 300 <;> simp [h]

/-- Unfolding `validResults` over the head task. -/
theorem validResults_cons (net : String → HttpResult) (pr : Int × String)
    (u : List (Int × String)) :
    validResults net (pr :: u)
      = match (download_image net pr.1 pr.2).2 with
        | some d => (pr.1, d) :: validResults net u
        | none => validResults net u := by
  unfold validResults gatherResults
  simp only [List.map_cons, List.filterMap_cons]
  have hf := download_image_fst net pr.1 pr.2
  cases ho : (download_image net pr.1 pr.2).2 with
  | none => simp [ho]
  | some d => simp [ho, hf]

/-- Filtering a key class commutes with the download pipeline. -/
theorem validResults_filter_key (net : String → HttpResult) (k : Int)
    (u : List (Int × String)) :
    (validResults net u).filter (fun pr => pr.1 == k)
      = validResults net (u.filter (fun pr => pr.1 == k)) := by
  induction u with
  | nil => rfl
  | cons pr u ih =>
      rw [validResults_cons, List.filter_cons]
      cases ho : (download_image net pr.1 pr.2).2 with
      | none =>
          cases hk : (pr.1 == k) <;>
            simp [List.filter_cons, hk, ih, validResults_cons, ho]
      | some d =>
          cases hk : (pr.1 == k) <;>
            simp [List.filter_cons, hk, ih, validResults_cons, ho]

/-- Unfolding cover extraction over the head page. -/
theorem extractUrls_cons (p : Page) (ps : List Page) :
    extractUrls (p :: ps)
      = if p.coverImg = "" then extractUrls ps
        else (pageIdx p, p.coverImg) :: extractUrls ps := by
  by_cases hc : p.coverImg = "" <;>
    simp [extractUrls, List.filterMap_cons, hc]

/-- Filtering a key class commutes with cover extraction (an extracted
pair carries `pageIdx` of its page as the key). -/
theorem extractUrls_filter_key (k : Int) (l : List Page) :
    (extractUrls l).filter (fun pr => pr.1 == k)
      = extractUrls (l.filter (fun p => pageIdx p == k)) := by
  induction l with
  | nil => rfl
  | cons p ps ih =>
      rw [extractUrls_cons, List.filter_cons]
      by_cases hc : p.coverImg = ""
      · cases hk : (pageIdx p == k) <;>
          simp [hc, hk, ih, extractUrls_cons]
      · cases hk : (pageIdx p == k) <;>
          simp [List.filter_cons, hc, hk, ih, extractUrls_cons]

/-- A successful `build_pdf_from_json` returns exactly the sorted
successful downloads of its extracted batch. -/
theorem build_ok_images (net : String → HttpResult) (pages : List Page)
    (imgs : List Bytes) (h : build_pdf_from_json net pages = .ok imgs) :
    imgs = (sortK Prod.fst (validResults net (imageUrls pages))).map Prod.snd := by
  simp only [build_pdf_from_json] at h
  split at h
  · simp at h
  · split at h
    · simp at h
    · split at h
      · simp at h
      · split at h
        · simp at h
        · simp only [download_images_parallel] at h
          split at h
          · simp at h
          · simpa using h.symm

/-- C1: for every valid page list, the byte-buffer sequence handed to
the PDF encoder is the projection of a pair list whose declared `_idx`
keys are ascending, and whose every key class is — verbatim, in
original array order — the class of successfully downloaded covers of
the unsorted input pages (so ties are broken stably by original order,
failures are omitted, and nothing depends on download completion order:
`asyncio.gather` already returns results in task order). -/
theorem pdf_page_order (net : String → HttpResult) (pages : List Page)
    (imgs : List Bytes) (h : build_pdf_from_json net pages = .ok imgs) :
    ∃ pairs : List (Int × Bytes),
      imgs = pairs.map Prod.snd
      ∧ pairs.Pairwise (fun a b => a.1 ≤ b.1)
      ∧ ∀ k : Int, pairs.filter (fun pr => pr.1 == k)
          = (validResults net (extractUrls pages)).filter (fun pr => pr.1 == k) := by
  refine ⟨sortK Prod.fst (validResults net (imageUrls pages)),
    build_ok_images net pages imgs h, sortK_pairwise Prod.fst _, ?_⟩
  intro k
  calc (sortK Prod.fst (validResults net (imageUrls pages))).filter
          (fun pr => pr.1 == k)
      = (validResults net (imageUrls pages)).filter (fun pr => pr.1 == k) :=
        sortK_filter_key Prod.fst k _
    _ = validResults net ((imageUrls pages).filter (fun pr => pr.1 == k)) :=
        validResults_filter_key net k _
    _ = validResults net
          ((extractUrls (sortK pageIdx pages)).filter (fun pr => pr.1 == k)) := rfl
    _ = validResults net
          (extractUrls ((sortK pageIdx pages).filter (fun p => pageIdx p == k))) := by
        rw [extractUrls_filter_key]
    _ = validResults net (extractUrls (pages.filter (fun p => pageIdx p == k))) := by
        rw [sortK_filter_key]
    _ = validResults net ((extractUrls pages).filter (fun pr => pr.1 == k)) := by
        rw [extractUrls_filter_key]
    _ = (validResults net (extractUrls pages)).filter (fun pr => pr.1 == k) :=
        (validResults_filter_key net k _).symm

/-- C1 witness: on `pagesW` the build succeeds with the buffers in
`_idx` order, and `pdf_page_order` applies. -/
theorem pdf_page_order_witness :
    ∃ pairs : List (Int × Bytes),
      [[10], [20]] = pairs.map Prod.snd
      ∧ pairs.Pairwise (fun a b => a.1 ≤ b.1)
      ∧ ∀ k : Int, pairs.filter (fun pr => pr.1 == k)
          = (validResults netW (extractUrls pagesW)).filter (fun pr => pr.1 == k) :=
  pdf_page_order netW pagesW [[10], [20]] rfl

/-- If every download failed, the pipeline keeps nothing. -/
theorem validResults_eq_nil (net : String → HttpResult) (u : List (Int × String))
    (hall : ∀ pr ∈ u, (download_image net pr.1 pr.2).2 = none) :
    validResults net u = [] := by
  induction u with
  | nil => rfl
  | cons pr u ih =>
      rw [validResults_cons, hall pr (List.mem_cons_self pr u)]
      exact ih (fun q hq => hall q (List.mem_cons_of_mem pr hq))

/-- Membership in the kept results: exactly the pairs whose URL
downloaded successfully with that body. -/
theorem mem_validResults (net : String → HttpResult) (u : List (Int × String))
    (k : Int) (d : Bytes) :
    (k, d) ∈ validResults net u
      ↔ ∃ url, (k, url) ∈ u ∧ (download_image net k url).2 = some d := by
  unfold validResults gatherResults
  rw [List.filterMap_map, List.mem_filterMap]
  constructor
  · rintro ⟨⟨i, url⟩, hm, hr⟩
    simp only [Function.comp_apply] at hr
    have hf := download_image_fst net i url
    cases ho : (download_image net i url).2 with
    | none => rw [ho] at hr; simp at hr
    | some dd =>
        rw [ho] at hr
        simp only [Option.map_some, Option.some.injEq, Prod.mk.injEq, hf] at hr
        obtain ⟨rfl, rfl⟩ := hr
        exact ⟨url, hm, ho⟩
  · rintro ⟨url, hm, hd⟩
    refine ⟨(k, url), hm, ?_⟩
    simp only [Function.comp_apply]
    rw [hd]
    simp [download_image_fst net k url]

/-- C4: for every non-empty batch given to the concurrent fetch
pipeline, (i) if every download fails the pipeline fails with the
aggregate `AllDownloadsFailed`, (ii) that aggregate is the *only*
error it can ever produce — no per-image failure surfaces — and
(iii) if at least one download succeeds it returns exactly the
successful subset (characterized item by item), sorted ascending by
index. -/
theorem download_pipeline_aggregate (net : String → HttpResult)
    (urls : List (Int × String)) (hne : urls ≠ []) :
    ((∀ pr ∈ urls, (download_image net pr.1 pr.2).2 = none) →
        download_images_parallel net urls = .error .allDownloadsFailed)
    ∧ (∀ e, download_images_parallel net urls = .error e → e = .allDownloadsFailed)
    ∧ ((∃ pr ∈ urls, (download_image net pr.1 pr.2).2 ≠ none) →
        download_images_parallel net urls
          = .ok ((sortK Prod.fst (validResults net urls)).map Prod.snd)
        ∧ (∀ (k : Int) (d : Bytes),
            (k, d) ∈ validResults net urls
              ↔ ∃ url, (k, url) ∈ urls ∧ (download_image net k url).2 = some d)
        ∧ (sortK Prod.fst (validResults net urls)).Pairwise (fun a b => a.1 ≤ b.1)) := by
  refine ⟨?_, ?_, ?_⟩
  · intro hall
    simp [download_images_parallel, validResults_eq_nil net urls hall]
  · intro e he
    simp only [download_images_parallel] at he
    split at he
    · have h1 : PdfError.allDownloadsFailed = e := by simpa using he
      exact h1.symm
    · simp at he
  · intro hex
    obtain ⟨pr, hm, hd⟩ := hex
    have hnonempty : validResults net urls ≠ [] := by
      intro hnil
      cases ho : (download_image net pr.1 pr.2).2 with
      | none => exact hd ho
      | some dd =>
          have : (pr.1, dd) ∈ validResults net urls := by
            rw [mem_validResults]
            exact ⟨pr.2, by simpa using hm, ho⟩
          rw [hnil] at this
          simp at this
    refine ⟨by simp [download_images_parallel, hnonempty], mem_validResults net urls,
      sortK_pairwise Prod.fst _⟩

/-- C4 witness: a one-element batch on the all-failing network yields
the aggregate error, and on `netW` the successful path applies. -/
theorem download_pipeline_aggregate_witness :
    download_images_parallel netFail [(0, "u")] = .error .allDownloadsFailed
    ∧ download_images_parallel netW [(0, "https://iteachcdn.xdf.cn/a.png")]
        = .ok ((sortK Prod.fst
            (validResults netW [(0, "https://iteachcdn.xdf.cn/a.png")])).map Prod.snd) :=
  ⟨(download_pipeline_aggregate netFail [(0, "u")] (by decide)).1 (by decide),
   ((download_pipeline_aggregate netW [(0, "https://iteachcdn.xdf.cn/a.png")]
      (by decide)).2.2 (by decide)).1⟩

/-- One progress event per settlement. -/
theorem downloadTrace_length (completed total r : Nat) :
    (downloadTrace completed total r).length = r := by
  induction r generalizing completed with
  | zero => rfl
  | succ r ih => simp [downloadTrace, ih]

/-- The `i`-th progress event of a trace that starts at `completed`. -/
theorem downloadTrace_getElem (completed total r i : Nat) :
    (downloadTrace completed total r)[i]?
      = if i < r then some ("downloading", completed + i + 1, total) else none := by
  induction r generalizing completed i with
  | zero => simp [downloadTrace]
  | succ r ih =>
      cases i with
      | zero => simp [downloadTrace]
      | succ i =>
          have harith : completed + 1 + i + 1 = completed + (i + 1) + 1 := by omega
          simp only [downloadTrace, List.getElem?_cons_succ, ih (completed + 1) i,
            Nat.succ_lt_succ_iff, harith]

/-- C5: a pipeline run that launches `total` downloads invokes the
progress callback exactly once per settlement, always with stage
`"downloading"`; the `i`-th invocation carries `completed = i + 1`, so
the completed counts are `1, 2, ..., total` — strictly increasing by
one and never exceeding `total`. -/
theorem progress_trace_spec (total : Nat) :
    (runTrace total).length = total
    ∧ (∀ i, i < total → (runTrace total)[i]? = some ("downloading", i + 1, total))
    ∧ (∀ ev ∈ runTrace total,
        ev.1 = "downloading" ∧ 1 ≤ ev.2.1 ∧ ev.2.1 ≤ total ∧ ev.2.2 = total) := by
  refine ⟨downloadTrace_length 0 total total, ?_, ?_⟩
  · intro i hi
    rw [runTrace, downloadTrace_getElem, if_pos hi]
    simp
  · intro ev hev
    obtain ⟨i, hi, hgot⟩ := List.getElem_of_mem hev
    have hsome : (runTrace total)[i]? = some ev := by
      rw [List.getElem?_eq_getElem hi, hgot]
    have hi2 : i < total := by
      simpa [runTrace, downloadTrace_length] using hi
    rw [runTrace, downloadTrace_getElem, if_pos hi2] at hsome
    have hev2 : ev = ("downloading", 0 + i + 1, total) := by
      simpa using hsome.symm
    subst hev2
    refine ⟨rfl, by simp, by simp; omega, rfl⟩

/-- C5 witness: the trace of a three-download run. -/
theorem progress_trace_spec_witness :
    (runTrace 3).length = 3
    ∧ (runTrace 3)[1]? = some ("downloading", 2, 3) :=
  ⟨(progress_trace_spec 3).1, (progress_trace_spec 3).2.1 1 (by decide)⟩

/-- C9: `download_image` always reports under the index it was given
and never propagates an exception — a transport error or a non-2xx
status (which `raise_for_status` turns into an exception) becomes
`(idx, none)`, and a 2xx response becomes `(idx, some body)`. -/
theorem download_image_isolation (net : String → HttpResult) (idx : Int) (url : String) :
    (download_image net idx url).1 = idx
    ∧ (net url = .netError → download_image net idx url = (idx, none))
    ∧ (∀ s c, net url = .response s c → ¬(200 ≤ s ∧ s < 300) →
        download_image net idx url = (idx, none))
    ∧ (∀ s c, net url = .response s c → 200 ≤ s → s < 300 →
        download_image net idx url = (idx, some c)) := by
  refine ⟨download_image_fst net idx url, ?_, ?_, ?_⟩
  · intro h
    simp [download_image, h]
  · intro s c h hs
    simp [download_image, h, hs]
  · intro s c h hs1 hs2
    simp [download_image, h, hs1, hs2]

/-- C9 witness: a failing request and a 404 both yield `(idx, none)`;
a 200 yields the body. -/
theorem download_image_isolation_witness :
    (download_image netFail 7 "u").1 = 7
    ∧ download_image netFail 7 "u" = (7, none)
    ∧ download_image (fun _ => .response 404 [1]) 7 "u" = (7, none)
    ∧ download_image (fun _ => .response 200 [1]) 7 "u" = (7, some [1]) :=
  ⟨(download_image_isolation netFail 7 "u").1,
   (download_image_isolation netFail 7 "u").2.1 rfl,
   (download_image_isolation (fun _ => .response 404 [1]) 7 "u").2.2.1 404 [1] rfl
     (by decide),
   (download_image_isolation (fun _ => .response 200 [1]) 7 "u").2.2.2 200 [1] rfl
     (by decide) (by decide)⟩

/-- A failing host validation always reports the URL's own hostname. -/
theorem validate_host_error (url : String) (allowed : List String)
    (h : validate_host url allowed ≠ .ok ()) :
    validate_host url allowed = .error (.forbiddenHost (hostnameOf url)) := by
  unfold validate_host at h ⊢
  cases ho : hostnameOf url with
  | none => rfl
  | some hh =>
      rw [ho] at h
      by_cases hmem : hh ∈ allowed
      · exact absurd (by simp [hmem]) h
      · simp [hmem]

/-- When some URL of the batch fails validation, the validation loop
aborts with a `ForbiddenHost` error naming the hostname of an
offending URL of the batch. -/
theorem validateHosts_fires (l : List (Int × String))
    (hbad : ∃ pr ∈ l, validate_host pr.2 settings.allowed_image_hosts ≠ .ok ()) :
    ∃ pr ∈ l,
      validate_host pr.2 settings.allowed_image_hosts
          = .error (.forbiddenHost (hostnameOf pr.2))
      ∧ validateHosts l = .error (.forbiddenHost (hostnameOf pr.2)) := by
  induction l with
  | nil => simp at hbad
  | cons pr0 rest ih =>
      cases hv : validate_host pr0.2 settings.allowed_image_hosts with
      | error e =>
          have he : validate_host pr0.2 settings.allowed_image_hosts
              = .error (.forbiddenHost (hostnameOf pr0.2)) :=
            validate_host_error _ _ (by rw [hv]; simp)
          refine ⟨pr0, List.mem_cons_self pr0 rest, he, ?_⟩
          simp only [validateHosts]
          rw [he]
      | ok u =>
          cases u
          obtain ⟨pr, hm, hner⟩ := hbad
          rcases List.mem_cons.mp hm with rfl | hm2
          · exact absurd hv hner
          · obtain ⟨pq, hq, he, hall⟩ := ih ⟨pr, hm2, hner⟩
            refine ⟨pq, List.mem_cons_of_mem _ hq, he, ?_⟩
            simp only [validateHosts]
            rw [hv]
            exact hall

/-- C3: when an extracted batch that passed the size checks contains
any URL whose hostname is missing or not allow-listed, the whole job
fails with `ForbiddenHost` naming an offending host — for **every**
network, so no image of the batch is ever fetched (the result does not
depend on any download outcome). -/
theorem forbidden_host_all_or_nothing (pages : List Page)
    (h1 : pages.length ≤ settings.max_pages)
    (hne : imageUrls pages ≠ [])
    (h2 : (imageUrls pages).length ≤ settings.max_images)
    (hbad : ∃ pr ∈ imageUrls pages,
        validate_host pr.2 settings.allowed_image_hosts ≠ .ok ()) :
    ∃ pr ∈ imageUrls pages,
      validate_host pr.2 settings.allowed_image_hosts
          = .error (.forbiddenHost (hostnameOf pr.2))
      ∧ ∀ net, build_pdf_from_json net pages
          = .error (.forbiddenHost (hostnameOf pr.2)) := by
  obtain ⟨pr, hm, he, hall⟩ := validateHosts_fires (imageUrls pages) hbad
  refine ⟨pr, hm, he, fun net => ?_⟩
  simp only [build_pdf_from_json]
  rw [if_neg (Nat.not_lt.mpr h1), if_neg hne, if_neg (Nat.not_lt.mpr h2), hall]

/-- C3 witness: one page with a cover on `evil.example`. -/
theorem forbidden_host_all_or_nothing_witness :
    ∃ pr ∈ imageUrls pagesBadHost,
      validate_host pr.2 settings.allowed_image_hosts
          = .error (.forbiddenHost (hostnameOf pr.2))
      ∧ ∀ net, build_pdf_from_json net pagesBadHost
          = .error (.forbiddenHost (hostnameOf pr.2)) :=
  forbidden_host_all_or_nothing pagesBadHost (by decide) (by decide) (by decide)
    (by decide)

/-- Extraction yields at most one image per page. -/
theorem imageUrls_length_le (pages : List Page) :
    (imageUrls pages).length ≤ pages.length := by
  calc (imageUrls pages).length
      ≤ (sortK pageIdx pages).length := List.length_filterMap_le _ _
    _ = pages.length := sortK_length pageIdx pages

/-- C6: whenever the extracted image count exceeds `max_images`, the
page count necessarily exceeds `max_pages` as well (each page yields at
most one cover and both limits are 2000), so the job fails with a
`LimitExceeded`-class error — concretely, the page-limit rejection,
which precedes host validation and every download: the result is the
same for every network, i.e. no image request is issued. -/
theorem limit_exceeded_before_network (pages : List Page)
    (h : settings.max_images < (imageUrls pages).length) :
    settings.max_pages < pages.length
    ∧ isLimitExceeded (.tooManyPages pages.length) = true
    ∧ ∀ net, build_pdf_from_json net pages = .error (.tooManyPages pages.length) := by
  have hlen := imageUrls_length_le pages
  have hmm : settings.max_pages = settings.max_images := rfl
  have hp : settings.max_pages < pages.length := by omega
  refine ⟨hp, rfl, fun net => ?_⟩
  simp only [build_pdf_from_json]
  rw [if_pos hp]

/-- Inserting an element into copies of itself keeps the list shape. -/
theorem insertK_replicate_self (f : α → Int) (x : α) (n : Nat) :
    insertK f x (List.replicate n x) = List.replicate (n + 1) x := by
  induction n with
  | zero => rfl
  | succ n ih => simp [List.replicate_succ, insertK]

/-- Sorting a constant list is the identity. -/
theorem sortK_replicate (f : α → Int) (x : α) (n : Nat) :
    sortK f (List.replicate n x) = List.replicate n x := by
  induction n with
  | zero => rfl
  | succ n ih =>
      rw [List.replicate_succ, sortK, ih, insertK_replicate_self,
        List.replicate_succ]

/-- A replicated page with a non-empty cover extracts to a replicated
pair list. -/
theorem extractUrls_replicate (n : Nat) :
    extractUrls (List.replicate n ⟨none, "x"⟩) = List.replicate n ((0 : Int), "x") := by
  induction n with
  | zero => rfl
  | succ n ih =>
      rw [List.replicate_succ, extractUrls_cons, List.replicate_succ, ← ih]
      simp [pageIdx]

/-- C6 witness: 2001 one-cover pages exceed the image limit, and the
job rejects them identically on every network. -/
theorem limit_exceeded_before_network_witness :
    settings.max_pages < pagesBig.length
    ∧ isLimitExceeded (.tooManyPages pagesBig.length) = true
    ∧ ∀ net, build_pdf_from_json net pagesBig = .error (.tooManyPages pagesBig.length) :=
  limit_exceeded_before_network pagesBig
    (by
      show settings.max_images < (extractUrls (sortK pageIdx pagesBig)).length
      rw [pagesBig, sortK_replicate, extractUrls_replicate, List.length_replicate]
      decide)

/-- C2 counterexample: a run taking 181 s (past the 180 s deadline) is
rejected with 504 by the synchronous variant, but the
progress-streaming variant — whose handler contains no overall
`wait_for` — still delivers the complete output instead of a timeout
error, contradicting the claim that both variants enforce the
deadline. -/
theorem overall_deadline_counterexample :
    generate_pdf ⟨181, netOk, .ok pagesOk⟩ = .timeout504
    ∧ generate_pdf_with_progress ⟨181, netOk, .ok pagesOk⟩ = .complete [[7]]
    ∧ ∀ e, generate_pdf_with_progress ⟨181, netOk, .ok pagesOk⟩ ≠ .errorEvent e := by
  refine ⟨rfl, rfl, fun e h => ?_⟩
  rw [show generate_pdf_with_progress ⟨181, netOk, .ok pagesOk⟩
      = .complete [[7]] from rfl] at h
  exact SSEFinal.noConfusion h

/-- C2 (amended): only the synchronous `/generate` handler wraps the
fetch-build-encode work in the single 180 s deadline, surfacing 504 on
expiry and the work's own outcome otherwise; the progress-streaming
handler awaits the build task with no overall deadline, so its terminal
event is determined by the work's value alone, whatever the
duration. -/
theorem overall_deadline_spec (j : JobRun) :
    (settings.total_timeout < j.duration → generate_pdf j = .timeout504)
    ∧ (j.duration ≤ settings.total_timeout →
        generate_pdf j
          = match runJob j with
            | .error e => .failed e
            | .ok imgs => .ok imgs)
    ∧ (∀ d, generate_pdf_with_progress ⟨d, j.net, j.doc⟩
        = generate_pdf_with_progress j) := by
  refine ⟨?_, ?_, ?_⟩
  · intro h
    simp [generate_pdf, h]
  · intro h
    simp [generate_pdf, Nat.not_lt.mpr h]
  · intro d
    rfl

/-- C2 witness: the deadline branch at 181 s and the success branch at
10 s for the synchronous handler. -/
theorem overall_deadline_spec_witness :
    generate_pdf ⟨181, netOk, .ok pagesOk⟩ = .timeout504
    ∧ generate_pdf ⟨10, netOk, .ok pagesOk⟩ = .ok [[7]] :=
  ⟨(overall_deadline_spec ⟨181, netOk, .ok pagesOk⟩).1 (by decide),
   by
     rw [(overall_deadline_spec ⟨10, netOk, .ok pagesOk⟩).2.1 (by decide)]
     rfl⟩

/-- C7 counterexample: `http://h/jsonUrl=x/a.json` carries no `jsonUrl`
query parameter at all and ends in `.json`, so the claim demands it be
returned unchanged — but the code's guard tests for the *substring*
`"jsonUrl="` anywhere in the reference, sends this one into query
parsing, and fails with the malformed-reference error. -/
theorem extract_json_url_counterexample :
    qsGet (queryOf "http://h/jsonUrl=x/a.json") "jsonUrl".data = []
    ∧ endsWithL ("http://h/jsonUrl=x/a.json".data.map asciiLower) ".json".data = true
    ∧ extract_json_url "http://h/jsonUrl=x/a.json" = .error .malformedReference
    ∧ extract_json_url "http://h/jsonUrl=x/a.json"
        ≠ .ok "http://h/jsonUrl=x/a.json" := by
  refine ⟨rfl, rfl, rfl, fun h => ?_⟩
  rw [show extract_json_url "http://h/jsonUrl=x/a.json"
      = .error .malformedReference from rfl] at h
  exact Except.noConfusion h

/-- C7 (amended): the extractor returns the reference unchanged exactly
when the *substring* `"jsonUrl="` occurs nowhere in it and it
lower-case-ends in `".json"`; in every other case the query string is
parsed with `parse_qs`, a missing (or everywhere-empty, hence dropped)
`jsonUrl` parameter raises the malformed-reference error, and a present
parameter's first value — already percent-decoded once by `parse_qs`
(with `+` as space) — is returned after `unquote` decodes it a second
time.  On the spec's example both decodes coincide and it yields
`https://doc.example/j.json`. -/
theorem extract_json_url_spec (ref : String) :
    (containsSubL ref.data "jsonUrl=".data = false →
        endsWithL (ref.data.map asciiLower) ".json".data = true →
        extract_json_url ref = .ok ref)
    ∧ ((containsSubL ref.data "jsonUrl=".data = true
          ∨ endsWithL (ref.data.map asciiLower) ".json".data = false) →
        (qsGet (queryOf ref) "jsonUrl".data = [] →
            extract_json_url ref = .error .malformedReference)
        ∧ (∀ v rest, qsGet (queryOf ref) "jsonUrl".data = v :: rest →
            extract_json_url ref = .ok (String.mk (percentDecodeL v))))
    ∧ extract_json_url
        "https://viewer.example/display.html?jsonUrl=https%3A%2F%2Fdoc.example%2Fj.json"
        = .ok "https://doc.example/j.json" := by
  refine ⟨?_, ?_, rfl⟩
  · intro hc hends
    simp only [extract_json_url]
    rw [if_pos ⟨by simp [hc], hends⟩]
  · intro hor
    have hcond : ¬ (¬ containsSubL ref.data "jsonUrl=".data
        ∧ endsWithL (ref.data.map asciiLower) ".json".data) := by
      rcases hor with h | h <;> simp [h]
    constructor
    · intro hq
      simp only [extract_json_url]
      rw [if_neg hcond, hq]
    · intro v rest hq
      simp only [extract_json_url]
      rw [if_neg hcond, hq]

/-- C7 witness: a direct `.json` link passes through unchanged, and a
display link without the parameter is rejected. -/
theorem extract_json_url_spec_witness :
    extract_json_url "http://h/a.json" = .ok "http://h/a.json"
    ∧ extract_json_url "https://v/d.html?x=1" = .error .malformedReference :=
  ⟨(extract_json_url_spec "http://h/a.json").1 rfl rfl,
   ((extract_json_url_spec "https://v/d.html?x=1").2.1 (Or.inr rfl)).1 rfl⟩

/-- After eviction the cache holds nothing under the evicted key. -/
theorem cacheGet_pop (c : Cache) (k : String) :
    cacheGet (cachePop c k) k = none := by
  suffices h : (cachePop c k).find? (fun pr => pr.1 == k) = none by
    simp [cacheGet, h]
  rw [List.find?_eq_none]
  intro x hx hcon
  have h1 : x.1 = k := by simpa using hcon
  have h2 : x.1 ≠ k := by simpa using (List.mem_filter.mp hx).2
  exact h2 h1

/-- A freshly stored artifact is retrieved exactly. -/
theorem cacheGet_insert (c : Cache) (k : String) (v : Bytes) :
    cacheGet (cacheInsert c k v) k = some v := by
  simp [cacheGet, cacheInsert, List.find?]

/-- C8: an artifact stored for `tid` is retrievable — as exactly the
stored bytes, never stale or partial — strictly before the 300 s
retention window elapses, yields 404 from the moment the scheduled
eviction has fired, and the eviction itself is idempotent: deleting an
already-removed entry changes nothing. -/
theorem artifact_retention (c0 : Cache) (tid : String) (pdf : Bytes) (t : Nat) :
    (t < retention → download_pdf (cacheAtTime c0 tid pdf t) tid = .ok pdf)
    ∧ (retention ≤ t → download_pdf (cacheAtTime c0 tid pdf t) tid = .error 404)
    ∧ cleanup_cache (cleanup_cache (cacheInsert c0 tid pdf) tid) tid
        = cleanup_cache (cacheInsert c0 tid pdf) tid := by
  refine ⟨?_, ?_, ?_⟩
  · intro h
    simp [cacheAtTime, if_pos h, download_pdf, cacheGet_insert]
  · intro h
    simp [cacheAtTime, Nat.not_lt.mpr h, download_pdf, cleanup_cache, cacheGet_pop]
  · simp [cleanup_cache, cachePop, List.filter_filter]

/-- C8 witness: retrieval at 299 s succeeds with the stored bytes;
retrieval at 300 s is a 404. -/
theorem artifact_retention_witness :
    download_pdf (cacheAtTime [] "t" [1] 299) "t" = .ok [1]
    ∧ download_pdf (cacheAtTime [] "t" [1] 300) "t" = .error 404 :=
  ⟨(artifact_retention [] "t" [1] 299).1 (by decide),
   (artifact_retention [] "t" [1] 300).2.1 (by decide)⟩

/-- Every character the sanitizing substitution emits is allowed: kept
characters are allowed by the test, replacements are `_`. -/
theorem subRun_allowed (l : List Char) (b : Bool) :
    ∀ c ∈ subRun b l, allowedChar c = true := by
  induction l generalizing b with
  | nil => intro c hc; simp [subRun] at hc
  | cons d rest ih =>
      intro c hc
      by_cases hd : allowedChar d = true
      · rw [subRun, if_pos hd] at hc
        rcases List.mem_cons.mp hc with rfl | hc2
        · exact hd
        · exact ih false c hc2
      · rw [subRun, if_neg hd] at hc
        cases b with
        | true =>
            rw [if_pos rfl] at hc
            exact ih true c hc
        | false =>
            rw [if_neg (by simp)] at hc
            rcases List.mem_cons.mp hc with rfl | hc2
            · decide
            · exact ih true c hc2

/-- Appending the `.pdf` suffix preserves the allowed-character
invariant. -/
theorem withPdfExt_allowed (l : List Char)
    (h : ∀ c ∈ l, allowedChar c = true) :
    ∀ c ∈ withPdfExt l, allowedChar c = true := by
  intro c hc
  unfold withPdfExt at hc
  split at hc
  · exact h c hc
  · rcases List.mem_append.mp hc with h1 | h2
    · exact h c h1
    · have h3 : c = '.' ∨ c = 'p' ∨ c = 'd' ∨ c = 'f' := by
        simpa using h2
      rcases h3 with rfl | rfl | rfl | rfl <;> decide

/-- Truncation keeps a sublist. -/
theorem mem_truncated (l : List Char) (c : Char) (hc : c ∈ truncated l) :
    c ∈ l := by
  unfold truncated at hc
  split at hc
  · exact List.take_subset 120 l hc
  · exact hc

/-- Truncation enforces the 120-character bound. -/
theorem truncated_length_le (l : List Char) : (truncated l).length ≤ 120 := by
  unfold truncated
  split
  · rw [List.length_take]
    omega
  · omega

/-- A suffix check can only succeed on a list at least as long. -/
theorem startsWithL_length (l p : List Char) (h : startsWithL l p = true) :
    p.length ≤ l.length := by
  induction p generalizing l with
  | nil => simp
  | cons c cs ih =>
      cases l with
      | nil => simp [startsWithL] at h
      | cons d ds =>
          rw [startsWithL, Bool.and_eq_true] at h
          simpa using ih ds h.2

/-- The empty name never carries the `.pdf` suffix, so the extension
step always yields a non-empty list. -/
theorem withPdfExt_ne_nil (l : List Char) : withPdfExt l ≠ [] := by
  unfold withPdfExt
  split
  · next hcond =>
      intro h
      rw [h] at hcond
      exact absurd hcond (by decide)
  · intro h
    rcases List.append_eq_nil.mp h with ⟨-, h2⟩
    simp at h2

/-- Truncating a non-empty list keeps it non-empty. -/
theorem truncated_ne_nil (l : List Char) (h : l ≠ []) : truncated l ≠ [] := by
  unfold truncated
  split
  · intro hcon
    rcases List.take_eq_nil_iff.mp hcon with h120 | hnil
    · exact absurd h120 (by decide)
    · exact h hnil
  · exact h

/-- C10 counterexample: the empty input sanitizes to the empty list,
yet `safe_filename` returns `".pdf"` — not `"output.pdf"` as the claim
states: the `.pdf` suffix is appended *before* the emptiness fallback,
so the `"output.pdf"` branch is unreachable. -/
theorem safe_filename_counterexample :
    sanitized "" = []
    ∧ safe_filename "" = ".pdf"
    ∧ safe_filename "" ≠ "output.pdf" := by
  refine ⟨rfl, rfl, fun h => ?_⟩
  rw [show safe_filename "" = ".pdf" from rfl] at h
  exact absurd h (by decide)

/-- C10 (amended): `safe_filename` always returns a non-empty string of
at most 120 characters drawn from the allowed class (word characters,
hyphen, dot, parentheses, space, CJK) — in particular never a path
separator `/` or `\` — and an input that sanitizes to the empty string
yields `".pdf"` (the appended suffix; the `"output.pdf"` fallback is
dead code). -/
theorem safe_filename_spec (s : String) :
    (safe_filename s).length ≤ 120
    ∧ safe_filename s ≠ ""
    ∧ (∀ c ∈ (safe_filename s).data, allowedChar c = true)
    ∧ '/' ∉ (safe_filename s).data
    ∧ '\\' ∉ (safe_filename s).data
    ∧ (sanitized s = [] → safe_filename s = ".pdf") := by
  have hne : truncated (withPdfExt (sanitized s)) ≠ [] :=
    truncated_ne_nil _ (withPdfExt_ne_nil _)
  have hres : safe_filename s
      = String.mk (truncated (withPdfExt (sanitized s))) := by
    simp [safe_filename, if_neg hne]
  have hdata : (safe_filename s).data = truncated (withPdfExt (sanitized s)) := by
    rw [hres]
  have hall : ∀ c ∈ (safe_filename s).data, allowedChar c = true := by
    intro c hc
    rw [hdata] at hc
    exact withPdfExt_allowed _ (subRun_allowed _ false) c (mem_truncated _ c hc)
  refine ⟨?_, ?_, hall, ?_, ?_, ?_⟩
  · have : (safe_filename s).length = (safe_filename s).data.length := rfl
    rw [this, hdata]
    exact truncated_length_le _
  · intro hcon
    apply hne
    have : (safe_filename s).data = ("" : String).data := by rw [hcon]
    rw [hdata] at this
    exact this
  · intro hc
    exact absurd (hall '/' hc) (by decide)
  · intro hc
    exact absurd (hall '\\' hc) (by decide)
  · intro hsan
    rw [hres, hsan]
    rfl

/-- C10 witness: a path-like name is sanitized within the bound, and
the empty name maps to `".pdf"`. -/
theorem safe_filename_spec_witness :
    (safe_filename "a/b").length ≤ 120
    ∧ safe_filename "a/b" ≠ ""
    ∧ '/' ∉ (safe_filename "a/b").data
    ∧ safe_filename "" = ".pdf" :=
  ⟨(safe_filename_spec "a/b").1, (safe_filename_spec "a/b").2.1,
   (safe_filename_spec "a/b").2.2.2.1, (safe_filename_spec "").2.2.2.2.2 rfl⟩
